import Mathlib

/-!
Shallow embedding of `src/github_issue_groomer.py` (the "Heirloom" bot) and
verification of the frozen claims about it.

Modelling conventions:
* Timestamps are UTC instants measured in integer seconds.  A raw timestamp
  string delivered by the remote API either parses to such an instant
  (`RawTs.valid t`) or is malformed (`RawTs.malformed`); a missing or empty
  string field is `Option.none`.  Python's `timedelta.days` is floor division
  of the difference by 86400 seconds, i.e. `Int.fdiv`.
* All remote interaction is abstracted into an immutable `Env`: the GraphQL
  sub-issue answer per parent, per-batch transport failures (a raised
  `RequestException` after retries are exhausted), the REST pre-check fetch
  used by `add_comment_to_issue`, comment-POST failures, and the paginated
  issue listing.  Per the spec's interface section, a comment write has no
  other effect observable to this core, so the environment is not mutated by
  writes.
* Effects (HTTP requests issued, traversal enqueues, refresh attempts) are
  recorded in explicit event traces so that the claims about "what happens"
  become statements about the trace.
* Python exceptions are modelled by their observable control flow: the
  traversal's outer `try` returns the best-effort state on a transport
  failure, `add_comment_to_issue` distinguishes every exit path in
  `RefreshOutcome`, and an uncaught exception truncates the scan trace after
  a `crashed` marker.
-/

namespace Heirloom

/-- Seconds per day; `timedelta(days = n)` is `n * secPerDay` seconds. -/
def secPerDay : Int := 86400

/-- Raw timestamp string as delivered by the API: either it parses
(`datetime.fromisoformat` succeeds, possibly after stripping a trailing `Z`)
to an instant, or it is malformed and parsing raises. -/
inductive RawTs
  | valid (t : Int)
  | malformed
deriving DecidableEq

/-- Result of `datetime.fromisoformat` on a raw timestamp. -/
def parseTs : RawTs → Option Int
  | RawTs.valid t => some t
  | RawTs.malformed => none

/-- Parse a timestamp field that may be missing or empty (`none`). -/
def parseOptTs : Option RawTs → Option Int
  | some r => parseTs r
  | none => none

/-- Lowercase a Python string, as a character list (`str.lower`). -/
def lowerChars (s : String) : List Char := s.data.map Char.toLower

/-- Boolean test that `n` starts `h` (`str.startswith`). -/
def charsPre : List Char → List Char → Bool
  | [], _ => true
  | _ :: _, [] => false
  | a :: as, b :: bs => a == b && charsPre as bs

/-- Boolean substring test (`n in h` for Python strings). -/
def charsSub (n : List Char) : List Char → Bool
  | [] => charsPre n []
  | c :: cs => charsPre n (c :: cs) || charsSub n cs

/-- Boolean test that `n` ends `h` (`str.endswith`). -/
def charsSuf (n h : List Char) : Bool := charsPre n.reverse h.reverse

/-- Python truthiness of an optional string: present and non-empty. -/
def truthy : Option String → Bool
  | some s => !(s == "")
  | none => false

/-- The lowercased-login bot heuristic from `get_most_recent_child_activity`:
`la.endswith('[bot]') or 'dependabot' in la or la.startswith('github-actions')
or 'bot' in la`. -/
def botLogin (login : String) : Bool :=
  let la := lowerChars login
  charsSuf "[bot]".data la || charsSub "dependabot".data la ||
    charsPre "github-actions".data la || charsSub "bot".data la

/-- `bot_author` detection: the comment author's GraphQL `__typename`
lowercases to `'bot'`, or (`elif`) the login is truthy and matches
`botLogin`. -/
def botAuthor (authorType authorLogin : Option String) : Bool :=
  if truthy authorType && (lowerChars (authorType.getD "") == "bot".data) then
    true
  else if truthy authorLogin then
    botLogin (authorLogin.getD "")
  else
    false

/-- `consider_as_activity` for one sub-issue: a bot author (or, `elif`, an
ignored actor) whose last comment parses to a time at or after the issue's
`updatedAt` discounts the update; a malformed comment timestamp raises inside
the guard and the handler resets the flag to `True`. -/
def considerActivity (ignoreActors : List String) (updatedAt : Int)
    (authorLogin authorType : Option String) (commentUpdated : Option RawTs) :
    Bool :=
  if botAuthor authorType authorLogin then
    match commentUpdated with
    | some (RawTs.valid t) => if updatedAt ≤ t then false else true
    | some RawTs.malformed => true
    | none => true
  else if truthy authorLogin && (ignoreActors.contains (authorLogin.getD "")) then
    match commentUpdated with
    | some (RawTs.valid t) => if updatedAt ≤ t then false else true
    | some RawTs.malformed => true
    | none => true
  else
    true

/-- Last comment of a sub-issue as returned by `comments(last:1)`: author
login and `__typename` (either may be absent) and the comment's own
`updatedAt`. -/
structure RawComment where
  authorLogin : Option String
  authorType : Option String
  updatedAt : Option RawTs
deriving DecidableEq

/-- One node of a `subIssues(first:100)` answer. -/
structure SubNode where
  typename : String
  number : Option Int
  updatedAt : Option RawTs
  comments : List RawComment
deriving DecidableEq

/-- One entry of the `details` list the traversal collects (debug mode):
the per-descendant activity record. -/
structure ActRec where
  number : Int
  updatedAt : Int
  parent : Int
  authorLogin : Option String
  commentUpdated : Option RawTs
  consider : Bool
deriving DecidableEq

/-- An issue node of a paginated repository listing (`number`, `updatedAt`;
the title is never consulted). -/
structure IssueNode where
  number : Option Int
  updatedAt : Option RawTs
deriving DecidableEq

/-- Answer to one page request of the stale scan: the POST raised
(`transportFail`, uncaught), the body did not have the expected shape
(`malformed`), or a proper page. -/
inductive PageResp
  | transportFail
  | malformed
  | page (nodes : List IssueNode) (hasNext : Bool)
deriving DecidableEq

/-- The immutable remote world one invocation runs against. -/
structure Env where
  /-- `subIssues` answer for one parent alias: `none` models a missing alias
  or a malformed entry (both are skipped), `some nodes` the node list, where
  a `none` node models a null or non-dict element. -/
  subs : Int → Option (List (Option SubNode))
  /-- The batched GraphQL POST of the traversal raises (after retries) for
  this batch. -/
  batchFails : List Int → Bool
  /-- `add_comment_to_issue`'s own GET of the issue: `none` when the request
  raises after retries, otherwise the `updated_at` field (which itself may be
  missing or empty). -/
  preFetch : Int → Option (Option RawTs)
  /-- The comment-creation POST raises (after retries) for this issue. -/
  postFails : Int → Bool
  /-- Successive answers to the stale scan's paginated issue listing. -/
  pages : List PageResp
  /-- Answer to the label/type-seeded candidate query: `none` when the
  response could not be parsed. -/
  labelsResp : Option (List IssueNode)
  /-- Configured ignore list of actor logins (`INPUT_IGNORE-ACTORS`,
  defaulted to `github-actions[bot]`). -/
  ignoreActors : List String

/-- Traversal batch size (`batch_size = 10`). -/
def batchSize : Nat := 10

/-- Traversal safety cap (`max_visit = 2000`). -/
def maxVisit : Nat := 2000

/-- Instrumentation events of one traversal. -/
inductive TravEvent
  | fetch (batch : List Int) (visitedCard : Nat)
  | enq (id : Int)
  | abortBatch (batch : List Int)
deriving DecidableEq

/-- State of the breadth-first traversal: the work queue `to_process`, the
`visited` set, the running maximum `most_recent_date`, the collected
`details` records, and the instrumentation trace. -/
structure TravState where
  queue : List Int
  visited : Finset Int
  best : Option Int
  recs : List ActRec
  trace : List TravEvent
deriving DecidableEq

/-- `most_recent_date` update: keep the strictly larger timestamp. -/
def bumpBest (b : Option Int) (t : Int) : Option Int :=
  match b with
  | none => some t
  | some m => if t > m then some t else some m

/-- Mark a child visited and enqueue it if new; clear the whole queue and
stop the node loop (second component) once the visited cap is reached. -/
def enqueueChild (child : Int) (s : TravState) : TravState × Bool :=
  if child ∈ s.visited then (s, false)
  else
    let visited := insert child s.visited
    let trace := s.trace ++ [TravEvent.enq child]
    if maxVisit ≤ visited.card then
      ({ queue := [], visited := visited, best := s.best, recs := s.recs,
         trace := trace }, true)
    else
      ({ s with queue := s.queue ++ [child], visited := visited,
                trace := trace }, false)

/-- Process one node of a `subIssues` answer: filter non-issues and nodes
without a number or timestamp, read the last comment, parse the timestamp,
classify, update the running maximum and the records, and enqueue the child.
The boolean asks the caller to break the node loop (visited cap). -/
def processNode (ig : List String) (parent : Int) (nodeOpt : Option SubNode)
    (s : TravState) : TravState × Bool :=
  match nodeOpt with
  | none => (s, false)
  | some node =>
    if node.typename = "Issue" then
      match node.number, node.updatedAt with
      | some child, some raw =>
        let lastc := node.comments.getLast?
        let la := lastc.bind (fun c => c.authorLogin)
        let ty := lastc.bind (fun c => c.authorType)
        let lu := lastc.bind (fun c => c.updatedAt)
        match parseTs raw with
        | none => (s, false)
        | some updatedAt =>
          let consider := considerActivity ig updatedAt la ty lu
          enqueueChild child
            { s with
              best := if consider then bumpBest s.best updatedAt else s.best,
              recs := s.recs ++ [{ number := child, updatedAt := updatedAt,
                                   parent := parent, authorLogin := la,
                                   commentUpdated := lu, consider := consider }] }
      | _, _ => (s, false)
    else (s, false)

/-- Node loop for one alias, honouring the cap break. -/
def processNodes (ig : List String) (parent : Int) :
    List (Option SubNode) → TravState → TravState
  | [], s => s
  | n :: rest, s =>
    let r := processNode ig parent n s
    if r.2 then r.1 else processNodes ig parent rest r.1

/-- Handle one alias of a batched answer: missing or malformed alias data is
skipped. -/
def processAlias (env : Env) (parent : Int) (s : TravState) : TravState :=
  match env.subs parent with
  | none => s
  | some nodes => processNodes env.ignoreActors parent nodes s

/-- Handle every alias of one batch in order. -/
def processBatch (env : Env) : List Int → TravState → TravState
  | [], s => s
  | p :: rest, s => processBatch env rest (processAlias env p s)

/-- Termination measure of the traversal loop: pending queue entries plus
twice the remaining headroom under the visited cap. -/
def travMeasure (s : TravState) : Nat :=
  s.queue.length + 2 * (maxVisit - s.visited.card)

/-- The `while to_process:` loop, structurally recursive on fuel.  A batch
whose POST raises is the outer `except`: the loop is abandoned and the state
found so far is returned (best effort).  `travLoopF_succ` below shows the
fuel used at top level never runs out. -/
def travLoopF (env : Env) : Nat → TravState → TravState
  | 0, s => s
  | fuel + 1, s =>
    match s.queue with
    | [] => s
    | _ :: _ =>
      let batch := s.queue.take batchSize
      let rest := s.queue.drop batchSize
      if env.batchFails batch then
        { s with trace := s.trace ++ [TravEvent.abortBatch batch] }
      else
        travLoopF env fuel (processBatch env batch
          { s with queue := rest,
                   trace := s.trace ++ [TravEvent.fetch batch s.visited.card] })

/-- Initial traversal state: queue and visited seeded with the root. -/
def initState (issueId : Int) : TravState :=
  { queue := [issueId], visited := {issueId}, best := none, recs := [],
    trace := [] }

/-- The traversal engine.  `best` is the function's return value
(`most_recent_date`), `recs` the debug `details`, `trace` the
instrumentation. -/
def get_most_recent_child_activity (env : Env) (issueId : Int) : TravState :=
  travLoopF env (travMeasure (initState issueId)) (initState issueId)

/-- Exit status of one `add_comment_to_issue` call. -/
inductive RefreshOutcome
  | fetchFailed
  | parseCrash
  | skippedFresh
  | dryRunOnly
  | postFailed
  | posted
deriving DecidableEq

/-- Tail of `add_comment_to_issue` after the freshness pre-check: dry-run
records the action without a write, otherwise the comment POST is issued. -/
def finishComment (env : Env) (issueId : Int) (dryRun : Bool) : RefreshOutcome :=
  if dryRun then RefreshOutcome.dryRunOnly
  else if env.postFails issueId then RefreshOutcome.postFailed
  else RefreshOutcome.posted

/-- `add_comment_to_issue`: with a threshold, first GET the issue (a raised
request is caught: warning, no write); if `updated_at` is present and
parses, skip when the issue was updated within the threshold; an unparsable
`updated_at` raises a `ValueError` that no caller catches (`parseCrash`). -/
def add_comment_to_issue (env : Env) (now : Int) (issueId : Int)
    (daysThreshold : Option Int) (dryRun : Bool) : RefreshOutcome :=
  match daysThreshold with
  | some thr =>
    match env.preFetch issueId with
    | none => RefreshOutcome.fetchFailed
    | some updatedAtField =>
      match updatedAtField with
      | some raw =>
        match parseTs raw with
        | none => RefreshOutcome.parseCrash
        | some updatedAt =>
          if now - updatedAt < thr * secPerDay then RefreshOutcome.skippedFresh
          else finishComment env issueId dryRun
      | none => finishComment env issueId dryRun
  | none => finishComment env issueId dryRun

/-- Observable events of a scan strategy. -/
inductive ScanEvent
  | pageStart (pageIdx : Nat) (basePos : Nat)
  | evalItem (pos : Nat) (id : Int) (activity : Option Int)
  | refreshCall (pos : Nat) (id : Int) (outcome : RefreshOutcome)
  | crashed
deriving DecidableEq

/-- Body of the stale scan's per-issue processing once the stop check has
passed: dedup against `processed_parents`, run the traversal, and refresh
when a genuine descendant timestamp lies within the threshold.  A
`RequestException` from the comment call is caught and the parent is marked
processed regardless; the `ValueError` of an unparsable pre-check timestamp
is not caught (crash flag). -/
def hierItemRest (env : Env) (now thr : Int) (dry : Bool) (pos : Nat) (n : Int)
    (processed : Finset Int) : List ScanEvent × Finset Int × Bool :=
  if n ∈ processed then ([], processed, false)
  else
    match (get_most_recent_child_activity env n).best with
    | some t =>
      if Int.fdiv (now - t) secPerDay < thr then
        let oc := add_comment_to_issue env now n (some thr) dry
        if oc = RefreshOutcome.parseCrash then
          ([ScanEvent.evalItem pos n (some t),
            ScanEvent.refreshCall pos n oc], processed, true)
        else
          ([ScanEvent.evalItem pos n (some t),
            ScanEvent.refreshCall pos n oc], insert n processed, false)
      else ([ScanEvent.evalItem pos n (some t)], processed, false)
    | none => ([ScanEvent.evalItem pos n none], processed, false)

/-- One iteration of the stale scan's issue loop: issues without a number
are skipped before anything else; an issue whose `updatedAt` parses to a
time newer than the cutoff sets `stop_all` (third component) and nothing
else happens for it. -/
def hierItem (env : Env) (now cutoff thr : Int) (dry : Bool) (pos : Nat)
    (issue : IssueNode) (processed : Finset Int) :
    List ScanEvent × Finset Int × Bool × Bool :=
  match issue.number with
  | none => ([], processed, false, false)
  | some n =>
    match parseOptTs issue.updatedAt with
    | some t =>
      if t > cutoff then ([], processed, true, false)
      else
        let r := hierItemRest env now thr dry pos n processed
        (r.1, r.2.1, false, r.2.2)
    | none =>
      let r := hierItemRest env now thr dry pos n processed
      (r.1, r.2.1, false, r.2.2)

/-- The stale scan's loop over the issues of one page, stopping at
`stop_all` or on a crash. -/
def hierItems (env : Env) (now cutoff thr : Int) (dry : Bool) :
    Nat → List IssueNode → Finset Int →
    List ScanEvent × Finset Int × Bool × Bool
  | _, [], processed => ([], processed, false, false)
  | pos, it :: rest, processed =>
    let r := hierItem env now cutoff thr dry pos it processed
    if r.2.2.1 || r.2.2.2 then r
    else
      let r2 := hierItems env now cutoff thr dry (pos + 1) rest r.2.1
      (r.1 ++ r2.1, r2.2)

/-- The stale scan's page loop: each iteration POSTs the listing query
(`pageStart`); a raised request is uncaught (`crashed`), a malformed body or
an empty node list returns, `stop_all` stops all pagination, and otherwise
the next page is fetched while `hasNextPage` holds. -/
def hierPages (env : Env) (now cutoff thr : Int) (dry : Bool) :
    List PageResp → Nat → Nat → Finset Int → List ScanEvent
  | [], _, _, _ => []
  | PageResp.transportFail :: _, pageIdx, basePos, _ =>
    [ScanEvent.pageStart pageIdx basePos, ScanEvent.crashed]
  | PageResp.malformed :: _, pageIdx, basePos, _ =>
    [ScanEvent.pageStart pageIdx basePos]
  | PageResp.page nodes hasNext :: rest, pageIdx, basePos, processed =>
    if nodes = [] then [ScanEvent.pageStart pageIdx basePos]
    else
      let r := hierItems env now cutoff thr dry basePos nodes processed
      let evs := ScanEvent.pageStart pageIdx basePos :: r.1
      if r.2.2.2 then evs ++ [ScanEvent.crashed]
      else if r.2.2.1 then evs
      else if hasNext then
        evs ++ hierPages env now cutoff thr dry rest (pageIdx + 1)
          (basePos + nodes.length) r.2.1
      else evs

/-- `process_issues_by_hierarchy`: scan open issues oldest-updated-first
with `cutoff = now - timedelta(days = days_threshold)`. -/
def process_issues_by_hierarchy (env : Env) (now thr : Int) (dry : Bool) :
    List ScanEvent :=
  hierPages env now (now - thr * secPerDay) thr dry env.pages 0 0 ∅

/-- One candidate of the label/type-seeded scan: traverse, and refresh when
the most recent genuine descendant activity is within the threshold.  The
flag reports the uncaught `ValueError` of the refresh pre-check. -/
def labelItem (env : Env) (now thr : Int) (dry : Bool) (pos : Nat) (n : Int) :
    List ScanEvent × Bool :=
  match (get_most_recent_child_activity env n).best with
  | some t =>
    if Int.fdiv (now - t) secPerDay < thr then
      let oc := add_comment_to_issue env now n (some thr) dry
      ([ScanEvent.evalItem pos n (some t), ScanEvent.refreshCall pos n oc],
       oc = RefreshOutcome.parseCrash)
    else ([ScanEvent.evalItem pos n (some t)], false)
  | none => ([ScanEvent.evalItem pos n none], false)

/-- Candidate loop of the label/type-seeded scan.  There is no dedup set in
this mode; a candidate without a number yields a traversal of a nonexistent
issue, which finds nothing and refreshes nothing. -/
def labelItems (env : Env) (now thr : Int) (dry : Bool) :
    Nat → List IssueNode → List ScanEvent
  | _, [] => []
  | pos, it :: rest =>
    match it.number with
    | none => labelItems env now thr dry (pos + 1) rest
    | some n =>
      let r := labelItem env now thr dry pos n
      if r.2 then r.1 ++ [ScanEvent.crashed]
      else r.1 ++ labelItems env now thr dry (pos + 1) rest

/-- `process_issues_by_labels`: one bounded candidate query, then the
candidate loop; a response that cannot be parsed returns with a warning. -/
def process_issues_by_labels (env : Env) (now thr : Int) (dry : Bool) :
    List ScanEvent :=
  match env.labelsResp with
  | none => []
  | some cands => labelItems env now thr dry 0 cands

/-! ### Derived notions used by the claim statements -/

/-- One step of the running-maximum recurrence, applied per record. -/
def genStep (b : Option Int) (r : ActRec) : Option Int :=
  if r.consider then bumpBest b r.updatedAt else b

/-- The running maximum a record list produces. -/
def genMax (recs : List ActRec) : Option Int := recs.foldl genStep none

/-- Timestamps of the records classified genuine. -/
def genuineTimes (recs : List ActRec) : List Int :=
  (recs.filter fun r => r.consider).map fun r => r.updatedAt

/-- Identifiers of the enqueue events of a traversal trace, in order. -/
def enqIds (tr : List TravEvent) : List Int :=
  tr.filterMap fun e =>
    match e with
    | TravEvent.enq id => some id
    | _ => none

/-- Loop invariant of the traversal: the root and every identifier ever
enqueued are pairwise distinct and lie in the visited set, a visited set at
or above the cap forces an empty queue, and every batch was fetched while
the visited count was still below the cap. -/
def TravInv (root : Int) (s : TravState) : Prop :=
  (root :: enqIds s.trace).Nodup ∧
  (∀ id ∈ root :: enqIds s.trace, id ∈ s.visited) ∧
  (maxVisit ≤ s.visited.card → s.queue = []) ∧
  (∀ b c, TravEvent.fetch b c ∈ s.trace → c < maxVisit)

/-- Does this event record a refresh call (any outcome) for `id`? -/
def isRCfor (id : Int) : ScanEvent → Bool
  | ScanEvent.refreshCall _ i _ => i == id
  | _ => false

/-- Does this event record a performed comment write for `id`? -/
def isWriteFor (id : Int) : ScanEvent → Bool
  | ScanEvent.refreshCall _ i oc => i == id && (oc == RefreshOutcome.posted)
  | _ => false

/-- Number of refresh calls for `id` in a scan trace. -/
def countRC (id : Int) (tr : List ScanEvent) : Nat :=
  (tr.filter (isRCfor id)).length

/-- Number of performed comment writes for `id` in a scan trace. -/
def countWrites (id : Int) (tr : List ScanEvent) : Nat :=
  (tr.filter (isWriteFor id)).length

/-- Stop condition of the stale scan for one listed item: it carries a
number and its `updatedAt` parses to a time strictly newer than the
cutoff.  Items without a number are skipped before the stop check, and an
unparsable `updatedAt` never stops the scan. -/
def stopItem (cutoff : Int) (it : IssueNode) : Bool :=
  it.number.isSome &&
    (match parseOptTs it.updatedAt with
     | some t => decide (cutoff < t)
     | none => false)

/-- `stopItem` lifted to an optional list lookup. -/
def stopItemO (cutoff : Int) : Option IssueNode → Bool
  | some it => stopItem cutoff it
  | none => false

/-- The items carried by one page answer. -/
def pageNodes : PageResp → List IssueNode
  | PageResp.page nodes _ => nodes
  | _ => []

/-- All listed items of a page sequence, flattened in scan order. -/
def flatItems (ps : List PageResp) : List IssueNode := (ps.map pageNodes).flatten

/-- Position bound for scan events: evaluations and refresh calls lie
strictly before position `k`, and page requests start at or before `k`. -/
def posOK (k : Nat) : ScanEvent → Prop
  | ScanEvent.evalItem pos _ _ => pos < k
  | ScanEvent.refreshCall pos _ _ => pos < k
  | ScanEvent.pageStart _ basePos => basePos ≤ k
  | ScanEvent.crashed => True

/-- Environment with no issues at all; base of the concrete environments. -/
def emptyEnv : Env :=
  { subs := fun _ => some []
  , batchFails := fun _ => false
  , preFetch := fun _ => some none
  , postFails := fun _ => false
  , pages := []
  , labelsResp := none
  , ignoreActors := ["github-actions[bot]"] }

/-- A well-formed sub-issue node. -/
def mkChild (n t : Int) (c : List RawComment) : SubNode :=
  { typename := "Issue", number := some n, updatedAt := some (RawTs.valid t),
    comments := c }

/-- A human-authored comment. -/
def humanComment (t : Int) : RawComment :=
  { authorLogin := some "alice", authorType := some "User",
    updatedAt := some (RawTs.valid t) }

/-- Label-seeded scan: candidate 1 has a descendant updated two days ago,
but candidate 1 itself was updated one day ago, so the refresh pre-check
skips the write. -/
def envC1 : Env :=
  { emptyEnv with
    labelsResp := some [{ number := some 1, updatedAt := some (RawTs.valid 9000000) }]
    subs := fun p => if p = 1 then
        some [some (mkChild 2 9827200 [humanComment 9827200])]
      else some []
    preFetch := fun _ => some (some (RawTs.valid 9913600)) }

/-- Label-seeded scan: candidate 7 with a fresh descendant and a stale own
timestamp; the refresh call posts a comment. -/
def envC1w : Env :=
  { emptyEnv with
    labelsResp := some [{ number := some 7, updatedAt := none }]
    subs := fun p => if p = 7 then some [some (mkChild 8 9900000 [])] else some []
    preFetch := fun _ => some (some (RawTs.valid 1000000)) }

/-- One genuine descendant for the traversal-maximum witness. -/
def envC2w : Env :=
  { emptyEnv with
    subs := fun p => if p = 1 then some [some (mkChild 2 100 [])] else some [] }

/-- The flattened listing's second item is newer than the cutoff but has no
number, so the scan runs past it and evaluates the third item. -/
def envC4 : Env :=
  { emptyEnv with
    pages := [PageResp.page
      [{ number := some 4, updatedAt := some (RawTs.valid 1000000) },
       { number := none, updatedAt := some (RawTs.valid 9999999) },
       { number := some 6, updatedAt := some RawTs.malformed }] false] }

/-- A stale listing whose second item carries a number and a timestamp newer
than the cutoff: the scan stops there. -/
def envC4w : Env :=
  { emptyEnv with
    pages := [PageResp.page
      [{ number := some 4, updatedAt := some (RawTs.valid 1000000) },
       { number := some 5, updatedAt := some (RawTs.valid 9999999) },
       { number := some 6, updatedAt := some (RawTs.valid 1000) }] true,
      PageResp.page [{ number := some 7, updatedAt := some (RawTs.valid 9999999) }] false] }

/-- Label-seeded scan whose candidate list enumerates issue 7 twice; both
refresh calls post a comment. -/
def envC5 : Env :=
  { emptyEnv with
    labelsResp := some [{ number := some 7, updatedAt := none },
                        { number := some 7, updatedAt := none }]
    subs := fun p => if p = 7 then some [some (mkChild 8 9900000 [])] else some []
    preFetch := fun _ => some (some (RawTs.valid 1000000)) }

/-- Pre-check fetch per issue: issue 1 fails, issue 2 is fresh, issue 3 is
stale. -/
def envC6 : Env :=
  { emptyEnv with
    preFetch := fun i =>
      if i = 1 then none
      else if i = 2 then some (some (RawTs.valid 9913600))
      else some (some (RawTs.valid 1000000)) }

/-- Root 1 has eleven children; the batched fetch of the second frontier
batch fails, so the queued child 12 is never fetched. -/
def envC7 : Env :=
  { emptyEnv with
    subs := fun p => if p = 1 then
        some [some (mkChild 2 5000000 []), some (mkChild 3 5000000 []),
              some (mkChild 4 5000000 []), some (mkChild 5 5000000 []),
              some (mkChild 6 5000000 []), some (mkChild 7 5000000 []),
              some (mkChild 8 5000000 []), some (mkChild 9 5000000 []),
              some (mkChild 10 5000000 []), some (mkChild 11 5000000 []),
              some (mkChild 12 5000000 [])]
      else some []
    batchFails := fun b => b.contains 2 }

/-- Every batched fetch fails. -/
def envC7w : Env := { emptyEnv with batchFails := fun _ => true }

/-- One descendant whose last comment is bot-authored with a malformed
comment timestamp. -/
def envC8 : Env :=
  { emptyEnv with
    subs := fun p => if p = 1 then
        some [some { typename := "Issue", number := some 2,
                     updatedAt := some (RawTs.valid 100),
                     comments := [{ authorLogin := some "dependabot[bot]",
                                    authorType := some "Bot",
                                    updatedAt := some RawTs.malformed }] }]
      else some []}

/-- A two-cycle: issue 1 lists issue 2 as its child and vice versa. -/
def envC9 : Env :=
  { emptyEnv with
    subs := fun p =>
      if p = 1 then some [some (mkChild 2 42 [])]
      else if p = 2 then some [some (mkChild 1 10 [])]
      else some [] }

/-- Stale scan whose refresh POST for issue 5 fails after retries. -/
def envC10 : Env :=
  { emptyEnv with
    pages := [PageResp.page [{ number := some 5, updatedAt := some (RawTs.valid 1000000) }] false]
    subs := fun p => if p = 5 then some [some (mkChild 6 9900000 [])] else some []
    preFetch := fun _ => some (some (RawTs.valid 1000000))
    postFails := fun i => i == 5 }

/-! ### Supporting lemmas -/

lemma travMeasure_enqueueChild (c : Int) (s : TravState) :
    travMeasure (enqueueChild c s).1 ≤ travMeasure s := by
  unfold enqueueChild
  by_cases h : c ∈ s.visited
  · simp [h]
  · have hcard : (insert c s.visited).card = s.visited.card + 1 :=
      Finset.card_insert_of_not_mem h
    by_cases hcap : maxVisit ≤ s.visited.card + 1
    · simp [h, hcard, hcap, travMeasure]
    · simp [h, hcard, hcap, travMeasure]
      omega

lemma travMeasure_processNode (ig : List String) (p : Int) (n : Option SubNode)
    (s : TravState) : travMeasure (processNode ig p n s).1 ≤ travMeasure s := by
  match n with
  | none => simp [processNode]
  | some node =>
    unfold processNode
    by_cases hty : node.typename = "Issue"
    · simp only [if_pos hty]
      cases hnum : node.number with
      | none => cases hupd : node.updatedAt <;> simp
      | some child =>
        cases hupd : node.updatedAt with
        | none => simp
        | some raw =>
          cases hp : parseTs raw with
          | none => simp [hp]
          | some updatedAt =>
            simp only [hp]
            exact travMeasure_enqueueChild child _
    · simp [hty]

lemma travMeasure_processNodes (ig : List String) (p : Int) :
    ∀ (ns : List (Option SubNode)) (s : TravState),
      travMeasure (processNodes ig p ns s) ≤ travMeasure s
  | [], s => le_refl _
  | n :: rest, s => by
    unfold processNodes
    by_cases h : (processNode ig p n s).2
    · simp only [h, if_true]
      exact travMeasure_processNode ig p n s
    · simp only [h, Bool.false_eq_true, if_false]
      exact le_trans (travMeasure_processNodes ig p rest _)
        (travMeasure_processNode ig p n s)

lemma travMeasure_processAlias (env : Env) (p : Int) (s : TravState) :
    travMeasure (processAlias env p s) ≤ travMeasure s := by
  unfold processAlias
  match env.subs p with
  | none => exact le_refl _
  | some nodes => exact travMeasure_processNodes env.ignoreActors p nodes s

lemma travMeasure_processBatch (env : Env) :
    ∀ (batch : List Int) (s : TravState),
      travMeasure (processBatch env batch s) ≤ travMeasure s
  | [], s => le_refl _
  | p :: rest, s => by
    unfold processBatch
    exact le_trans (travMeasure_processBatch env rest _)
      (travMeasure_processAlias env p s)

lemma travLoopF_nil (env : Env) (fuel : Nat) (s : TravState) (hq : s.queue = []) :
    travLoopF env fuel s = s := by
  cases fuel <;> simp [travLoopF, hq]

lemma travLoopF_cons (env : Env) (fuel : Nat) (s : TravState) (hq : s.queue ≠ []) :
    travLoopF env (fuel + 1) s =
      if env.batchFails (s.queue.take batchSize) then
        { s with trace := s.trace ++ [TravEvent.abortBatch (s.queue.take batchSize)] }
      else
        travLoopF env fuel (processBatch env (s.queue.take batchSize)
          { s with queue := s.queue.drop batchSize,
                   trace := s.trace ++
                     [TravEvent.fetch (s.queue.take batchSize) s.visited.card] }) := by
  cases h : s.queue with
  | nil => exact absurd h hq
  | cons a as => simp only [travLoopF, h]

lemma travLoopF_succ (env : Env) :
    ∀ (fuel : Nat) (s : TravState), travMeasure s ≤ fuel →
      travLoopF env (fuel + 1) s = travLoopF env fuel s := by
  intro fuel
  induction fuel with
  | zero =>
    intro s hs
    have hq : s.queue = [] := by
      apply List.length_eq_zero.mp
      unfold travMeasure at hs
      omega
    rw [travLoopF_nil env _ s hq, travLoopF_nil env _ s hq]
  | succ f ih =>
    intro s hs
    by_cases hq : s.queue = []
    · rw [travLoopF_nil env _ s hq, travLoopF_nil env _ s hq]
    · rw [travLoopF_cons env (f + 1) s hq, travLoopF_cons env f s hq]
      by_cases hf : env.batchFails (s.queue.take batchSize)
      · simp [hf]
      · simp only [hf, Bool.false_eq_true, if_false]
        apply ih
        set s1 := { s with queue := s.queue.drop batchSize,
                           trace := s.trace ++
                             [TravEvent.fetch (s.queue.take batchSize) s.visited.card] }
          with hs1
        have hA := travMeasure_processBatch env (s.queue.take batchSize) s1
        have hB : travMeasure s1 + 1 ≤ travMeasure s := by
          have hdl : (s.queue.drop batchSize).length + 1 ≤ s.queue.length := by
            rw [List.length_drop]
            have hp : 0 < s.queue.length := List.length_pos.mpr hq
            have hb : 1 ≤ batchSize := by decide
            omega
          rw [hs1]
          unfold travMeasure
          dsimp only
          omega
        omega

lemma travLoopF_fuel (env : Env) :
    ∀ (fuel : Nat) (s : TravState), travMeasure s ≤ fuel →
      travLoopF env fuel s = travLoopF env (travMeasure s) s := by
  intro fuel
  induction fuel with
  | zero =>
    intro s hs
    have : travMeasure s = 0 := Nat.le_zero.mp hs
    rw [this]
  | succ f ih =>
    intro s hs
    by_cases h : travMeasure s ≤ f
    · rw [travLoopF_succ env f s h]
      exact ih s h
    · have : travMeasure s = f + 1 := by omega
      rw [this]


lemma enqueueChild_best_recs (c : Int) (s : TravState) :
    (enqueueChild c s).1.best = s.best ∧ (enqueueChild c s).1.recs = s.recs := by
  unfold enqueueChild
  split
  · exact ⟨rfl, rfl⟩
  · dsimp only
    split <;> exact ⟨rfl, rfl⟩

lemma genInv_processNode (ig : List String) (p : Int) (n : Option SubNode)
    (s : TravState) (hI : s.best = genMax s.recs) :
    (processNode ig p n s).1.best = genMax (processNode ig p n s).1.recs := by
  match n with
  | none => simpa [processNode] using hI
  | some node =>
    unfold processNode
    by_cases hty : node.typename = "Issue"
    · simp only [if_pos hty]
      cases hnum : node.number with
      | none => cases hupd : node.updatedAt <;> simpa using hI
      | some child =>
        cases hupd : node.updatedAt with
        | none => simpa using hI
        | some raw =>
          cases hp : parseTs raw with
          | none => simpa [hp] using hI
          | some updatedAt =>
            simp only [hp]
            obtain ⟨hb, hr⟩ := enqueueChild_best_recs child _
            rw [hb, hr]
            simp only [genMax, List.foldl_append, List.foldl_cons, List.foldl_nil]
            simp only [genMax] at hI
            rw [← hI]
            rfl
    · simpa [hty] using hI

lemma genInv_processNodes (ig : List String) (p : Int) :
    ∀ (ns : List (Option SubNode)) (s : TravState), s.best = genMax s.recs →
      (processNodes ig p ns s).best = genMax (processNodes ig p ns s).recs
  | [], _, h => h
  | n :: rest, s, h => by
    unfold processNodes
    by_cases hb : (processNode ig p n s).2
    · simp only [hb, if_true]
      exact genInv_processNode ig p n s h
    · simp only [hb, Bool.false_eq_true, if_false]
      exact genInv_processNodes ig p rest _ (genInv_processNode ig p n s h)

lemma genInv_processAlias (env : Env) (p : Int) (s : TravState)
    (h : s.best = genMax s.recs) :
    (processAlias env p s).best = genMax (processAlias env p s).recs := by
  unfold processAlias
  match env.subs p with
  | none => exact h
  | some nodes => exact genInv_processNodes env.ignoreActors p nodes s h

lemma genInv_processBatch (env : Env) :
    ∀ (batch : List Int) (s : TravState), s.best = genMax s.recs →
      (processBatch env batch s).best = genMax (processBatch env batch s).recs
  | [], _, h => h
  | p :: rest, s, h => by
    unfold processBatch
    exact genInv_processBatch env rest _ (genInv_processAlias env p s h)

lemma genInv_travLoopF (env : Env) :
    ∀ (fuel : Nat) (s : TravState), s.best = genMax s.recs →
      (travLoopF env fuel s).best = genMax (travLoopF env fuel s).recs := by
  intro fuel
  induction fuel with
  | zero => intro s h; exact h
  | succ f ih =>
    intro s h
    by_cases hq : s.queue = []
    · rw [travLoopF_nil env _ s hq]; exact h
    · rw [travLoopF_cons env f s hq]
      by_cases hf : env.batchFails (s.queue.take batchSize)
      · simpa [hf] using h
      · simp only [hf, Bool.false_eq_true, if_false]
        exact ih _ (genInv_processBatch env _ _ h)

lemma gmrca_genMax (env : Env) (i : Int) :
    (get_most_recent_child_activity env i).best =
      genMax (get_most_recent_child_activity env i).recs := by
  unfold get_most_recent_child_activity
  exact genInv_travLoopF env _ _ rfl

lemma bumpBest_some (m t : Int) :
    bumpBest (some m) t = some (if t > m then t else m) := by
  show (if t > m then some t else some m) = some (if t > m then t else m)
  split <;> rfl

lemma foldl_genStep_eq :
    ∀ (recs : List ActRec) (b : Option Int),
      recs.foldl genStep b = (genuineTimes recs).foldl bumpBest b
  | [], b => rfl
  | r :: rest, b => by
    by_cases hc : r.consider
    · simp only [genuineTimes, List.filter_cons, hc, if_true, List.map_cons,
        List.foldl_cons, genStep]
      exact foldl_genStep_eq rest _
    · simp only [genuineTimes, List.filter_cons, hc, List.foldl_cons, genStep]
      simpa [hc, genuineTimes] using foldl_genStep_eq rest b

lemma foldl_bumpBest_isSome :
    ∀ (l : List Int) (m : Int), (l.foldl bumpBest (some m)).isSome
  | [], _ => rfl
  | t :: rest, m => by
    simp only [List.foldl_cons, bumpBest_some]
    exact foldl_bumpBest_isSome rest _

lemma foldl_bumpBest_none_iff (l : List Int) :
    l.foldl bumpBest none = none ↔ l = [] := by
  cases l with
  | nil => simp
  | cons t rest =>
    simp only [List.foldl_cons]
    constructor
    · intro h
      have := foldl_bumpBest_isSome rest t
      rw [show bumpBest none t = some t from rfl] at h
      rw [h] at this
      simp at this
    · intro h
      exact absurd h (by simp)

lemma foldl_bumpBest_mem :
    ∀ (l : List Int) (b : Option Int) (t : Int),
      l.foldl bumpBest b = some t → b = some t ∨ t ∈ l
  | [], b, t, h => Or.inl h
  | a :: rest, b, t, h => by
    simp only [List.foldl_cons] at h
    rcases foldl_bumpBest_mem rest (bumpBest b a) t h with h1 | h1
    · cases b with
      | none =>
        rw [show bumpBest none a = some a from rfl] at h1
        right
        simp [Option.some.injEq] at h1
        simp [h1]
      | some m =>
        rw [bumpBest_some] at h1
        by_cases hgt : a > m
        · right
          simp [hgt] at h1
          simp [h1]
        · left
          simp [hgt] at h1
          simp [h1]
    · right
      simp [h1]

lemma foldl_bumpBest_acc_le :
    ∀ (l : List Int) (m t : Int), l.foldl bumpBest (some m) = some t → m ≤ t
  | [], m, t, h => le_of_eq (Option.some.inj h)
  | a :: rest, m, t, h => by
    simp only [List.foldl_cons, bumpBest_some] at h
    have := foldl_bumpBest_acc_le rest _ t h
    by_cases hgt : a > m
    · simp [hgt] at this
      omega
    · simpa [hgt] using this

lemma foldl_bumpBest_le :
    ∀ (l : List Int) (b : Option Int) (t u : Int),
      l.foldl bumpBest b = some t → u ∈ l → u ≤ t
  | a :: rest, b, t, u, h, hm => by
    simp only [List.foldl_cons] at h
    rcases List.mem_cons.mp hm with h1 | h1
    · subst h1
      cases b with
      | none =>
        rw [show bumpBest none u = some u from rfl] at h
        exact foldl_bumpBest_acc_le rest u t h
      | some m =>
        rw [bumpBest_some] at h
        have := foldl_bumpBest_acc_le rest _ t h
        by_cases hgt : u > m
        · simpa [hgt] using this
        · simp [hgt] at this
          omega
    · exact foldl_bumpBest_le rest (bumpBest b a) t u h h1

lemma enqIds_append (t1 t2 : List TravEvent) :
    enqIds (t1 ++ t2) = enqIds t1 ++ enqIds t2 := by
  simp [enqIds]

lemma nodup_append_single {l : List Int} {c : Int} (h : l.Nodup) (hc : c ∉ l) :
    (l ++ [c]).Nodup := by
  simp [List.nodup_append, h, hc]

lemma travInv_enqueueChild (root c : Int) (s : TravState) (hI : TravInv root s) :
    TravInv root (enqueueChild c s).1 := by
  obtain ⟨h1, h2, h3, h4⟩ := hI
  unfold enqueueChild
  by_cases hm : c ∈ s.visited
  · simp only [hm, if_true]
    exact ⟨h1, h2, h3, h4⟩
  · have hfresh : c ∉ root :: enqIds s.trace := fun hc => hm (h2 c hc)
    have hnodup : (root :: enqIds (s.trace ++ [TravEvent.enq c])).Nodup := by
      rw [enqIds_append]
      show ((root :: enqIds s.trace) ++ enqIds [TravEvent.enq c]).Nodup
      exact nodup_append_single h1 hfresh
    have hmem : ∀ id ∈ root :: enqIds (s.trace ++ [TravEvent.enq c]),
        id ∈ insert c s.visited := by
      intro id hid
      rw [enqIds_append] at hid
      rcases List.mem_cons.mp hid with h | h
      · exact Finset.mem_insert.mpr (Or.inr (h2 id (by simp [h])))
      · rcases List.mem_append.mp h with h | h
        · exact Finset.mem_insert.mpr (Or.inr (h2 id (List.mem_cons_of_mem _ h)))
        · have : id = c := by simpa [enqIds] using h
          exact Finset.mem_insert.mpr (Or.inl this)
    have hfetch : ∀ b cc, TravEvent.fetch b cc ∈ s.trace ++ [TravEvent.enq c] →
        cc < maxVisit := by
      intro b cc hbc
      rcases List.mem_append.mp hbc with h | h
      · exact h4 b cc h
      · simp at h
    simp only [hm, if_false, Bool.false_eq_true]
    split
    · exact ⟨hnodup, hmem, fun _ => rfl, hfetch⟩
    · refine ⟨hnodup, hmem, ?_, hfetch⟩
      intro hcap
      exact absurd hcap (by assumption)

lemma travInv_processNode (root : Int) (ig : List String) (p : Int)
    (n : Option SubNode) (s : TravState) (hI : TravInv root s) :
    TravInv root (processNode ig p n s).1 := by
  match n with
  | none => simpa [processNode] using hI
  | some node =>
    unfold processNode
    by_cases hty : node.typename = "Issue"
    · simp only [if_pos hty]
      cases hnum : node.number with
      | none => cases hupd : node.updatedAt <;> simpa using hI
      | some child =>
        cases hupd : node.updatedAt with
        | none => simpa using hI
        | some raw =>
          cases hp : parseTs raw with
          | none => simpa [hp] using hI
          | some updatedAt =>
            simp only [hp]
            exact travInv_enqueueChild root child _ hI
    · simpa [hty] using hI

lemma travInv_processNodes (root : Int) (ig : List String) (p : Int) :
    ∀ (ns : List (Option SubNode)) (s : TravState), TravInv root s →
      TravInv root (processNodes ig p ns s)
  | [], _, h => h
  | n :: rest, s, h => by
    unfold processNodes
    by_cases hb : (processNode ig p n s).2
    · simp only [hb, if_true]
      exact travInv_processNode root ig p n s h
    · simp only [hb, Bool.false_eq_true, if_false]
      exact travInv_processNodes root ig p rest _ (travInv_processNode root ig p n s h)

lemma travInv_processAlias (root : Int) (env : Env) (p : Int) (s : TravState)
    (h : TravInv root s) : TravInv root (processAlias env p s) := by
  unfold processAlias
  match env.subs p with
  | none => exact h
  | some nodes => exact travInv_processNodes root env.ignoreActors p nodes s h

lemma travInv_processBatch (root : Int) (env : Env) :
    ∀ (batch : List Int) (s : TravState), TravInv root s →
      TravInv root (processBatch env batch s)
  | [], _, h => h
  | p :: rest, s, h => by
    unfold processBatch
    exact travInv_processBatch root env rest _ (travInv_processAlias root env p s h)

lemma travInv_travLoopF (root : Int) (env : Env) :
    ∀ (fuel : Nat) (s : TravState), TravInv root s →
      TravInv root (travLoopF env fuel s) := by
  intro fuel
  induction fuel with
  | zero => intro s h; exact h
  | succ f ih =>
    intro s h
    by_cases hq : s.queue = []
    · rw [travLoopF_nil env _ s hq]; exact h
    · rw [travLoopF_cons env f s hq]
      obtain ⟨h1, h2, h3, h4⟩ := h
      by_cases hf : env.batchFails (s.queue.take batchSize)
      · simp only [hf, if_true]
        refine ⟨?_, ?_, h3, ?_⟩
        · rw [enqIds_append]
          simpa [enqIds] using h1
        · intro id hid
          rw [enqIds_append] at hid
          apply h2
          simpa [enqIds] using hid
        · intro b cc hbc
          rcases List.mem_append.mp hbc with hh | hh
          · exact h4 b cc hh
          · simp at hh
      · simp only [hf, Bool.false_eq_true, if_false]
        apply ih
        apply travInv_processBatch
        have hcard : s.visited.card < maxVisit := by
          by_contra hcap
          exact hq (h3 (le_of_not_lt hcap))
        refine ⟨?_, ?_, ?_, ?_⟩
        · rw [enqIds_append]
          simpa [enqIds] using h1
        · intro id hid
          rw [enqIds_append] at hid
          apply h2
          simpa [enqIds] using hid
        · intro hcap
          exact absurd hcap (not_le.mpr hcard)
        · intro b cc hbc
          rcases List.mem_append.mp hbc with hh | hh
          · exact h4 b cc hh
          · simp only [List.mem_singleton] at hh
            cases hh
            exact hcard

lemma travInv_gmrca (env : Env) (i : Int) :
    TravInv i (get_most_recent_child_activity env i) := by
  unfold get_most_recent_child_activity
  apply travInv_travLoopF
  refine ⟨?_, ?_, ?_, ?_⟩
  · simp [enqIds, initState]
  · intro id hid
    have : id = i := by simpa [enqIds, initState] using hid
    simp [this, initState]
  · intro hcap
    have hc : (initState i).visited.card = 1 := by
      simp [initState]
    rw [hc] at hcap
    exact absurd hcap (by decide)
  · intro b cc hbc
    simp [initState, enqIds] at hbc

lemma countRC_append (id : Int) (t1 t2 : List ScanEvent) :
    countRC id (t1 ++ t2) = countRC id t1 + countRC id t2 := by
  simp [countRC]

lemma countRC_pos_of_mem {id : Int} {pos : Nat} {oc : RefreshOutcome}
    {tr : List ScanEvent} (h : ScanEvent.refreshCall pos id oc ∈ tr) :
    1 ≤ countRC id tr := by
  have hm : ScanEvent.refreshCall pos id oc ∈ tr.filter (isRCfor id) :=
    List.mem_filter.mpr ⟨h, by simp [isRCfor]⟩
  have := List.length_pos.mpr (List.ne_nil_of_mem hm)
  simpa [countRC] using this

lemma countWrites_le_countRC (id : Int) (tr : List ScanEvent) :
    countWrites id tr ≤ countRC id tr := by
  unfold countWrites countRC
  induction tr with
  | nil => simp
  | cons e rest ih =>
    by_cases hw : isWriteFor id e
    · have hr : isRCfor id e := by
        cases e <;> simp [isWriteFor, isRCfor] at hw ⊢
        exact hw.1
      simp [hw, hr]
      omega
    · by_cases hr : isRCfor id e <;> simp [hw, hr] <;> omega

lemma hierItemRest_other (env : Env) (now thr : Int) (dry : Bool) (pos : Nat)
    (n : Int) (processed : Finset Int) (id : Int) (hne : id ≠ n) :
    countRC id (hierItemRest env now thr dry pos n processed).1 = 0 := by
  unfold hierItemRest
  split
  · simp [countRC]
  · split
    · split
      · dsimp only
        split <;> simp [countRC, isRCfor, Ne.symm hne]
      · simp [countRC, isRCfor, Ne.symm hne]
    · simp [countRC, isRCfor, Ne.symm hne]

lemma hierItemRest_le_one (env : Env) (now thr : Int) (dry : Bool) (pos : Nat)
    (n : Int) (processed : Finset Int) (id : Int) :
    countRC id (hierItemRest env now thr dry pos n processed).1 ≤ 1 := by
  unfold hierItemRest
  split
  · simp [countRC]
  · split
    · split
      · dsimp only
        split <;>
          · simp only [countRC, isRCfor, List.filter]
            cases n == id <;> simp
      · simp [countRC, isRCfor]
    · simp [countRC, isRCfor]

lemma hierItemRest_mem (env : Env) (now thr : Int) (dry : Bool) (pos : Nat)
    (n : Int) (processed : Finset Int) (hm : n ∈ processed) :
    hierItemRest env now thr dry pos n processed = ([], processed, false) := by
  unfold hierItemRest
  simp [hm]

lemma hierItemRest_marks (env : Env) (now thr : Int) (dry : Bool) (pos : Nat)
    (n : Int) (processed : Finset Int) (id : Int)
    (h1 : 1 ≤ countRC id (hierItemRest env now thr dry pos n processed).1)
    (h2 : (hierItemRest env now thr dry pos n processed).2.2 = false) :
    id ∈ (hierItemRest env now thr dry pos n processed).2.1 := by
  have hid : id = n := by
    by_contra hne
    rw [hierItemRest_other env now thr dry pos n processed id hne] at h1
    omega
  subst hid
  revert h1 h2
  unfold hierItemRest
  split
  · intro h1 _
    simp [countRC] at h1
  · split
    · split
      · dsimp only
        split
        · intro _ h2
          simp at h2
        · intro _ _
          exact Finset.mem_insert_self _ _
      · intro h1 _
        simp [countRC, isRCfor] at h1
    · intro h1 _
      simp [countRC, isRCfor] at h1

lemma hierItemRest_subset (env : Env) (now thr : Int) (dry : Bool) (pos : Nat)
    (n : Int) (processed : Finset Int) :
    processed ⊆ (hierItemRest env now thr dry pos n processed).2.1 := by
  unfold hierItemRest
  split
  · exact Finset.Subset.refl _
  · split
    · split
      · dsimp only
        split
        · exact Finset.Subset.refl _
        · exact Finset.subset_insert _ _
      · exact Finset.Subset.refl _
    · exact Finset.Subset.refl _

lemma hierItem_le_one (env : Env) (now cutoff thr : Int) (dry : Bool) (pos : Nat)
    (it : IssueNode) (processed : Finset Int) (id : Int) :
    countRC id (hierItem env now cutoff thr dry pos it processed).1 ≤ 1 := by
  unfold hierItem
  split
  · simp [countRC]
  · split
    · split
      · simp [countRC]
      · exact hierItemRest_le_one env now thr dry pos _ processed id
    · exact hierItemRest_le_one env now thr dry pos _ processed id

lemma hierItem_zero_of_mem (env : Env) (now cutoff thr : Int) (dry : Bool)
    (pos : Nat) (it : IssueNode) (processed : Finset Int) (id : Int)
    (hm : id ∈ processed) :
    countRC id (hierItem env now cutoff thr dry pos it processed).1 = 0 := by
  unfold hierItem
  split
  · simp [countRC]
  · rename_i n hn
    by_cases hne : id = n
    · subst hne
      split
      · split
        · simp [countRC]
        · rw [hierItemRest_mem env now thr dry pos _ processed hm]
          simp [countRC]
      · rw [hierItemRest_mem env now thr dry pos _ processed hm]
        simp [countRC]
    · split
      · split
        · simp [countRC]
        · exact hierItemRest_other env now thr dry pos _ processed id hne
      · exact hierItemRest_other env now thr dry pos _ processed id hne

lemma hierItem_marks (env : Env) (now cutoff thr : Int) (dry : Bool) (pos : Nat)
    (it : IssueNode) (processed : Finset Int) (id : Int)
    (h1 : 1 ≤ countRC id (hierItem env now cutoff thr dry pos it processed).1)
    (h2 : (hierItem env now cutoff thr dry pos it processed).2.2.2 = false) :
    id ∈ (hierItem env now cutoff thr dry pos it processed).2.1 := by
  revert h1 h2
  unfold hierItem
  split
  · intro h1 _
    simp [countRC] at h1
  · split
    · split
      · intro h1 _
        simp [countRC] at h1
      · intro h1 h2
        exact hierItemRest_marks env now thr dry pos _ processed id h1 h2
    · intro h1 h2
      exact hierItemRest_marks env now thr dry pos _ processed id h1 h2

lemma hierItem_subset (env : Env) (now cutoff thr : Int) (dry : Bool) (pos : Nat)
    (it : IssueNode) (processed : Finset Int) :
    processed ⊆ (hierItem env now cutoff thr dry pos it processed).2.1 := by
  unfold hierItem
  split
  · exact Finset.Subset.refl _
  · split
    · split
      · exact Finset.Subset.refl _
      · exact hierItemRest_subset env now thr dry pos _ processed
    · exact hierItemRest_subset env now thr dry pos _ processed

lemma countRC_cons_pageStart (id : Int) (pi bp : Nat) (tr : List ScanEvent) :
    countRC id (ScanEvent.pageStart pi bp :: tr) = countRC id tr := by
  simp [countRC, isRCfor]

lemma countRC_append_crashed (id : Int) (tr : List ScanEvent) :
    countRC id (tr ++ [ScanEvent.crashed]) = countRC id tr := by
  simp [countRC, isRCfor]

lemma hierItems_once (env : Env) (now cutoff thr : Int) (dry : Bool) :
    ∀ (items : List IssueNode) (pos : Nat) (processed : Finset Int) (id : Int),
      countRC id (hierItems env now cutoff thr dry pos items processed).1 ≤ 1 ∧
      (id ∈ processed →
        countRC id (hierItems env now cutoff thr dry pos items processed).1 = 0) ∧
      (1 ≤ countRC id (hierItems env now cutoff thr dry pos items processed).1 →
        id ∈ (hierItems env now cutoff thr dry pos items processed).2.1 ∨
          (hierItems env now cutoff thr dry pos items processed).2.2.2 = true) ∧
      processed ⊆ (hierItems env now cutoff thr dry pos items processed).2.1
  | [], pos, processed, id => by
    refine ⟨?_, ?_, ?_, ?_⟩ <;> simp [hierItems, countRC]
  | it :: rest, pos, processed, id => by
    unfold hierItems
    dsimp only
    split
    · rename_i hb
      refine ⟨hierItem_le_one env now cutoff thr dry pos it processed id,
        fun hm => hierItem_zero_of_mem env now cutoff thr dry pos it processed id hm,
        ?_, hierItem_subset env now cutoff thr dry pos it processed⟩
      intro h1
      by_cases hcr : (hierItem env now cutoff thr dry pos it processed).2.2.2 = true
      · exact Or.inr hcr
      · exact Or.inl (hierItem_marks env now cutoff thr dry pos it processed id h1
          (by simpa using hcr))
    · rename_i hb
      have hb2 : (hierItem env now cutoff thr dry pos it processed).2.2.1 = false ∧
          (hierItem env now cutoff thr dry pos it processed).2.2.2 = false := by
        constructor <;> [skip; skip] <;>
          · revert hb
            cases (hierItem env now cutoff thr dry pos it processed).2.2.1 <;>
              cases (hierItem env now cutoff thr dry pos it processed).2.2.2 <;> simp
      obtain ⟨ih1, ih2, ih3, ih4⟩ := hierItems_once env now cutoff thr dry rest
        (pos + 1) (hierItem env now cutoff thr dry pos it processed).2.1 id
      have hc1 := hierItem_le_one env now cutoff thr dry pos it processed id
      have himp : 1 ≤ countRC id (hierItem env now cutoff thr dry pos it processed).1 →
          id ∈ (hierItem env now cutoff thr dry pos it processed).2.1 := by
        intro h
        exact hierItem_marks env now cutoff thr dry pos it processed id h hb2.2
      refine ⟨?_, ?_, ?_, ?_⟩
      · rw [countRC_append]
        by_cases hx : 1 ≤ countRC id (hierItem env now cutoff thr dry pos it processed).1
        · have := ih2 (himp hx)
          omega
        · omega
      · intro hm
        rw [countRC_append]
        have hz := hierItem_zero_of_mem env now cutoff thr dry pos it processed id hm
        have := ih2 (hierItem_subset env now cutoff thr dry pos it processed hm)
        omega
      · intro h
        rw [countRC_append] at h
        by_cases hx : 1 ≤ countRC id (hierItem env now cutoff thr dry pos it processed).1
        · exact Or.inl (ih4 (himp hx))
        · have : 1 ≤ countRC id (hierItems env now cutoff thr dry (pos + 1) rest
              (hierItem env now cutoff thr dry pos it processed).2.1).1 := by omega
          exact ih3 this
      · exact Finset.Subset.trans
          (hierItem_subset env now cutoff thr dry pos it processed) ih4

lemma hierPages_once (env : Env) (now cutoff thr : Int) (dry : Bool) :
    ∀ (ps : List PageResp) (pageIdx basePos : Nat) (processed : Finset Int) (id : Int),
      countRC id (hierPages env now cutoff thr dry ps pageIdx basePos processed) ≤ 1 ∧
      (id ∈ processed →
        countRC id (hierPages env now cutoff thr dry ps pageIdx basePos processed) = 0)
  | [], _, _, _, id => by constructor <;> simp [hierPages, countRC]
  | PageResp.transportFail :: rest, pageIdx, basePos, processed, id => by
    unfold hierPages
    constructor <;> simp [countRC, isRCfor]
  | PageResp.malformed :: rest, pageIdx, basePos, processed, id => by
    unfold hierPages
    constructor <;> simp [countRC, isRCfor]
  | PageResp.page nodes hasNext :: rest, pageIdx, basePos, processed, id => by
    unfold hierPages
    dsimp only
    split
    · constructor <;> simp [countRC, isRCfor]
    · obtain ⟨i1, i2, i3, i4⟩ := hierItems_once env now cutoff thr dry nodes
        basePos processed id
      split
      · rw [countRC_append_crashed, countRC_cons_pageStart]
        exact ⟨i1, i2⟩
      · split
        · rw [countRC_cons_pageStart]
          exact ⟨i1, i2⟩
        · split
          · rename_i hcr hst htrue
            have hcr2 : (hierItems env now cutoff thr dry basePos nodes processed).2.2.2
                = false := by
              revert hcr
              cases (hierItems env now cutoff thr dry basePos nodes processed).2.2.2 <;>
                simp
            obtain ⟨j1, j2⟩ := hierPages_once env now cutoff thr dry rest (pageIdx + 1)
              (basePos + nodes.length)
              (hierItems env now cutoff thr dry basePos nodes processed).2.1 id
            constructor
            · simp only [List.cons_append]
              rw [countRC_cons_pageStart, countRC_append]
              by_cases hx : 1 ≤ countRC id
                  (hierItems env now cutoff thr dry basePos nodes processed).1
              · rcases i3 hx with hmem | hcrash
                · have := j2 hmem
                  omega
                · rw [hcrash] at hcr2
                  cases hcr2
              · omega
            · intro hm
              simp only [List.cons_append]
              rw [countRC_cons_pageStart, countRC_append]
              have := i2 hm
              have := j2 (i4 hm)
              omega
          · rw [countRC_cons_pageStart]
            exact ⟨i1, i2⟩

lemma hier_once (env : Env) (now thr : Int) (dry : Bool) (id : Int) :
    countRC id (process_issues_by_hierarchy env now thr dry) ≤ 1 := by
  unfold process_issues_by_hierarchy
  exact (hierPages_once env now (now - thr * secPerDay) thr dry env.pages 0 0 ∅ id).1

lemma flatItems_cons (p : PageResp) (rest : List PageResp) :
    flatItems (p :: rest) = pageNodes p ++ flatItems rest := by
  simp [flatItems]

lemma hierItem_stop (env : Env) (now cutoff thr : Int) (dry : Bool) (pos : Nat)
    (it : IssueNode) (processed : Finset Int) (h : stopItem cutoff it = true) :
    hierItem env now cutoff thr dry pos it processed = ([], processed, true, false) := by
  unfold stopItem at h
  cases hnum : it.number with
  | none => rw [hnum] at h; simp at h
  | some n =>
    rw [hnum] at h
    cases hupd : parseOptTs it.updatedAt with
    | none => rw [hupd] at h; simp at h
    | some t =>
      rw [hupd] at h
      simp only [Option.isSome_some, Bool.true_and, decide_eq_true_eq] at h
      unfold hierItem
      rw [hnum, hupd]
      simp [h]

lemma hierItem_no_stop (env : Env) (now cutoff thr : Int) (dry : Bool) (pos : Nat)
    (it : IssueNode) (processed : Finset Int) (h : stopItem cutoff it = false) :
    (hierItem env now cutoff thr dry pos it processed).2.2.1 = false := by
  unfold stopItem at h
  unfold hierItem
  cases hnum : it.number with
  | none => rfl
  | some n =>
    rw [hnum] at h
    simp only [Option.isSome_some, Bool.true_and] at h
    cases hupd : parseOptTs it.updatedAt with
    | none => rfl
    | some t =>
      rw [hupd] at h
      simp only [decide_eq_false_iff_not, not_lt] at h
      have hng : ¬ t > cutoff := not_lt.mpr h
      simp [hng]

lemma hierItemRest_events_posOK (env : Env) (now thr : Int) (dry : Bool)
    (pos : Nat) (n : Int) (processed : Finset Int) (k : Nat) (hk : pos < k) :
    ∀ e ∈ (hierItemRest env now thr dry pos n processed).1, posOK k e := by
  intro e he
  revert he
  unfold hierItemRest
  split
  · intro he; simp at he
  · split
    · split
      · dsimp only
        split <;>
          · intro he
            rcases List.mem_cons.mp he with h | h
            · subst h; exact hk
            · rcases List.mem_cons.mp h with h2 | h2
              · subst h2; exact hk
              · simp at h2
      · intro he
        rcases List.mem_cons.mp he with h | h
        · subst h; exact hk
        · simp at h
    · intro he
      rcases List.mem_cons.mp he with h | h
      · subst h; exact hk
      · simp at h

lemma hierItem_events_posOK (env : Env) (now cutoff thr : Int) (dry : Bool)
    (pos : Nat) (it : IssueNode) (processed : Finset Int) (k : Nat) (hk : pos < k) :
    ∀ e ∈ (hierItem env now cutoff thr dry pos it processed).1, posOK k e := by
  intro e he
  revert he
  unfold hierItem
  split
  · intro he; simp at he
  · split
    · split
      · intro he; simp at he
      · dsimp only
        intro he
        exact hierItemRest_events_posOK env now thr dry pos _ processed k hk e he
    · dsimp only
      intro he
      exact hierItemRest_events_posOK env now thr dry pos _ processed k hk e he

lemma hierItems_bound (env : Env) (now cutoff thr : Int) (dry : Bool) (k : Nat) :
    ∀ (items : List IssueNode) (pos : Nat) (processed : Finset Int),
      pos ≤ k →
      (∀ j, pos + j < k → stopItemO cutoff items[j]? = false) →
      (∀ j, pos + j = k → j < items.length → stopItemO cutoff items[j]? = true) →
      (∀ e ∈ (hierItems env now cutoff thr dry pos items processed).1, posOK k e) ∧
      (pos + items.length ≤ k ∨
        (hierItems env now cutoff thr dry pos items processed).2.2.1 = true ∨
        (hierItems env now cutoff thr dry pos items processed).2.2.2 = true)
  | [], pos, processed, hk, _, _ => by
    constructor
    · intro e he; simp [hierItems] at he
    · left; simpa using hk
  | it :: rest, pos, processed, hk, hno, hstop => by
    rcases Nat.lt_or_ge pos k with hlt | hge
    · have hstop0 : stopItem cutoff it = false := by
        have := hno 0 (by omega)
        simpa [stopItemO] using this
      have hno2 : ∀ j, (pos + 1) + j < k → stopItemO cutoff rest[j]? = false := by
        intro j hj
        have := hno (j + 1) (by omega)
        simpa using this
      have hstop2 : ∀ j, (pos + 1) + j = k → j < rest.length →
          stopItemO cutoff rest[j]? = true := by
        intro j hj hl
        have := hstop (j + 1) (by omega) (by simp; omega)
        simpa using this
      unfold hierItems
      dsimp only
      split
      · rename_i hb
        constructor
        · exact hierItem_events_posOK env now cutoff thr dry pos it processed k hlt
        · right
          exact Bool.or_eq_true_iff.mp hb
      · rename_i hb
        obtain ⟨ih1, ih2⟩ := hierItems_bound env now cutoff thr dry k rest (pos + 1)
          (hierItem env now cutoff thr dry pos it processed).2.1 (by omega) hno2 hstop2
        constructor
        · intro e he
          rcases List.mem_append.mp he with h | h
          · exact hierItem_events_posOK env now cutoff thr dry pos it processed k hlt e h
          · exact ih1 e h
        · rcases ih2 with h | h | h
          · left
            simp only [List.length_cons]
            omega
          · right; left; exact h
          · right; right; exact h
    · have hpk : pos = k := le_antisymm hk hge
      have hstop0 : stopItem cutoff it = true := by
        have := hstop 0 (by omega) (by simp)
        simpa [stopItemO] using this
      unfold hierItems
      dsimp only
      rw [hierItem_stop env now cutoff thr dry pos it processed hstop0]
      constructor
      · intro e he
        simp at he
      · right; left; rfl

lemma hierPages_bound (env : Env) (now cutoff thr : Int) (dry : Bool) (k : Nat) :
    ∀ (ps : List PageResp) (pageIdx basePos : Nat) (processed : Finset Int),
      basePos ≤ k →
      (∀ j, basePos + j < k → stopItemO cutoff (flatItems ps)[j]? = false) →
      (∀ j, basePos + j = k → j < (flatItems ps).length →
        stopItemO cutoff (flatItems ps)[j]? = true) →
      ∀ e ∈ hierPages env now cutoff thr dry ps pageIdx basePos processed, posOK k e
  | [], _, _, _, _, _, _ => by
    intro e he
    simp [hierPages] at he
  | PageResp.transportFail :: rest, pageIdx, basePos, processed, hbase, _, _ => by
    intro e he
    unfold hierPages at he
    rcases List.mem_cons.mp he with h | h
    · subst h; exact hbase
    · rcases List.mem_cons.mp h with h2 | h2
      · subst h2; trivial
      · simp at h2
  | PageResp.malformed :: rest, pageIdx, basePos, processed, hbase, _, _ => by
    intro e he
    unfold hierPages at he
    rcases List.mem_cons.mp he with h | h
    · subst h; exact hbase
    · simp at h
  | PageResp.page nodes hasNext :: rest, pageIdx, basePos, processed, hbase, hno, hstop => by
    have hflat : flatItems (PageResp.page nodes hasNext :: rest) =
        nodes ++ flatItems rest := by
      rw [flatItems_cons]; rfl
    have hnoN : ∀ j, basePos + j < k → stopItemO cutoff nodes[j]? = false := by
      intro j hj
      by_cases hlen : j < nodes.length
      · have := hno j hj
        rw [hflat, List.getElem?_append_left hlen] at this
        exact this
      · rw [List.getElem?_eq_none (le_of_not_lt hlen)]
        rfl
    have hstopN : ∀ j, basePos + j = k → j < nodes.length →
        stopItemO cutoff nodes[j]? = true := by
      intro j hj hlen
      have hl2 : j < (flatItems (PageResp.page nodes hasNext :: rest)).length := by
        rw [hflat]
        simp only [List.length_append]
        omega
      have := hstop j hj hl2
      rw [hflat, List.getElem?_append_left hlen] at this
      exact this
    obtain ⟨i1, i2⟩ := hierItems_bound env now cutoff thr dry k nodes basePos processed
      hbase hnoN hstopN
    intro e he
    unfold hierPages at he
    revert he
    split
    · intro he
      rcases List.mem_cons.mp he with h | h
      · subst h; exact hbase
      · simp at h
    · dsimp only
      split
      · rename_i hcrash
        intro he
        have he2 : e = ScanEvent.pageStart pageIdx basePos ∨
            e ∈ (hierItems env now cutoff thr dry basePos nodes processed).1 ∨
            e = ScanEvent.crashed := by simpa using he
        rcases he2 with h | h | h
        · subst h; exact hbase
        · exact i1 e h
        · subst h; trivial
      · split
        · intro he
          rcases List.mem_cons.mp he with h | h
          · subst h; exact hbase
          · exact i1 e h
        · split
          · rename_i hcrash hstopF htrue
            have hlen : basePos + nodes.length ≤ k := by
              rcases i2 with h | h | h
              · exact h
              · exact absurd h hstopF
              · exact absurd h hcrash
            have hno2 : ∀ j, (basePos + nodes.length) + j < k →
                stopItemO cutoff (flatItems rest)[j]? = false := by
              intro j hj
              have := hno (nodes.length + j) (by omega)
              rw [hflat, List.getElem?_append_right (by omega)] at this
              simpa using this
            have hstop2 : ∀ j, (basePos + nodes.length) + j = k →
                j < (flatItems rest).length →
                stopItemO cutoff (flatItems rest)[j]? = true := by
              intro j hj hl
              have hl2 : nodes.length + j <
                  (flatItems (PageResp.page nodes hasNext :: rest)).length := by
                rw [hflat]
                simp only [List.length_append]
                omega
              have := hstop (nodes.length + j) (by omega) hl2
              rw [hflat, List.getElem?_append_right (by omega)] at this
              simpa using this
            intro he
            have he2 : e = ScanEvent.pageStart pageIdx basePos ∨
                e ∈ (hierItems env now cutoff thr dry basePos nodes processed).1 ∨
                e ∈ hierPages env now cutoff thr dry rest (pageIdx + 1)
                  (basePos + nodes.length)
                  (hierItems env now cutoff thr dry basePos nodes processed).2.1 := by
              simpa using he
            rcases he2 with h | h | h
            · subst h; exact hbase
            · exact i1 e h
            · exact hierPages_bound env now cutoff thr dry k rest (pageIdx + 1)
                (basePos + nodes.length)
                (hierItems env now cutoff thr dry basePos nodes processed).2.1
                hlen hno2 hstop2 e h
          · intro he
            rcases List.mem_cons.mp he with h | h
            · subst h; exact hbase
            · exact i1 e h

/-! ### Claim theorems -/

/-- C2: for every environment and root, the traversal returns the maximum
last-update timestamp over all discovered descendant records classified
genuine, and `none` exactly when there is no such record (no descendant
discovered, or every discovered one discounted). -/
theorem C2_most_recent_genuine (env : Env) (i : Int) :
    ((get_most_recent_child_activity env i).best = none ↔
      genuineTimes (get_most_recent_child_activity env i).recs = []) ∧
    ∀ t, (get_most_recent_child_activity env i).best = some t →
      t ∈ genuineTimes (get_most_recent_child_activity env i).recs ∧
      ∀ u ∈ genuineTimes (get_most_recent_child_activity env i).recs, u ≤ t := by
  have hfold : (get_most_recent_child_activity env i).best =
      (genuineTimes (get_most_recent_child_activity env i).recs).foldl bumpBest none :=
    (gmrca_genMax env i).trans (foldl_genStep_eq _ none)
  constructor
  · rw [hfold]
    exact foldl_bumpBest_none_iff _
  · intro t ht
    rw [hfold] at ht
    constructor
    · rcases foldl_bumpBest_mem _ none t ht with h | h
      · cases h
      · exact h
    · intro u hu
      exact foldl_bumpBest_le _ none t u ht hu

/-- Witness for C2 at a concrete environment: the single genuine descendant
timestamp 100 is returned and is the maximum. -/
theorem C2_most_recent_genuine_witness :
    (get_most_recent_child_activity envC2w 1).best = some 100 ∧
    100 ∈ genuineTimes (get_most_recent_child_activity envC2w 1).recs ∧
    ∀ u ∈ genuineTimes (get_most_recent_child_activity envC2w 1).recs, u ≤ 100 := by
  have h := (C2_most_recent_genuine envC2w 1).2 100 (by decide)
  exact ⟨by decide, h.1, h.2⟩

/-- C5 (amended): in the full-repository stale scan, no ancestor identifier
receives more than one comment write per invocation.  (The label-seeded
scan has no dedup set; see the counterexample.) -/
theorem C5_hier_write_once (env : Env) (now thr : Int) (dry : Bool) (id : Int) :
    countWrites id (process_issues_by_hierarchy env now thr dry) ≤ 1 :=
  le_trans (countWrites_le_countRC id _) (hier_once env now thr dry id)

/-- Counterexample to C5 as stated: the label-seeded scan enumerates issue 7
twice and posts two comment writes to it in one invocation. -/
theorem C5_counterexample :
    countWrites 7 (process_issues_by_labels envC5 10000000 30 false) = 2 := by
  decide

/-- C9: for every environment the traversal (a total function, also on
cyclic descendant graphs) never re-enqueues an identifier already visited
(the root and all enqueued ids are pairwise distinct) and issues no batch
fetch once the visited count reaches the cap of 2000; on a concrete
two-cycle through the root it terminates with the best timestamp found. -/
theorem C9_traversal_bounded :
    (∀ (env : Env) (i : Int),
      (i :: enqIds (get_most_recent_child_activity env i).trace).Nodup ∧
      ∀ b c, TravEvent.fetch b c ∈ (get_most_recent_child_activity env i).trace →
        c < maxVisit) ∧
    (get_most_recent_child_activity envC9 1).best = some 42 ∧
    (get_most_recent_child_activity envC9 1).trace =
      [TravEvent.fetch [1] 1, TravEvent.enq 2, TravEvent.fetch [2] 2] := by
  refine ⟨fun env i => ⟨(travInv_gmrca env i).1, fun b c h =>
    (travInv_gmrca env i).2.2.2 b c h⟩, by decide, by decide⟩

/-- Witness for C9: the concrete cyclic traversal's first fetch happened
with one visited identifier, below the cap. -/
theorem C9_traversal_bounded_witness :
    TravEvent.fetch [1] 1 ∈ (get_most_recent_child_activity envC9 1).trace ∧
    1 < maxVisit :=
  ⟨by decide, (C9_traversal_bounded.1 envC9 1).2 [1] 1 (by decide)⟩

/-- C6: with a threshold, `add_comment_to_issue` consults the re-fetched
`updated_at` of the ancestor first: a fetch failure ends the call without a
write, a timestamp within the threshold window skips the write, and once
the pre-check passes a dry run only records the action (no write). -/
theorem C6_refresh_precheck (env : Env) (now i thr : Int) (dry : Bool) :
    (env.preFetch i = none →
      add_comment_to_issue env now i (some thr) dry = RefreshOutcome.fetchFailed) ∧
    (∀ t, env.preFetch i = some (some (RawTs.valid t)) → now - t < thr * secPerDay →
      add_comment_to_issue env now i (some thr) dry = RefreshOutcome.skippedFresh) ∧
    (env.preFetch i = some none → dry = true →
      add_comment_to_issue env now i (some thr) dry = RefreshOutcome.dryRunOnly) ∧
    (∀ t, env.preFetch i = some (some (RawTs.valid t)) →
      ¬ now - t < thr * secPerDay → dry = true →
      add_comment_to_issue env now i (some thr) dry = RefreshOutcome.dryRunOnly) := by
  refine ⟨?_, ?_, ?_, ?_⟩
  · intro h
    unfold add_comment_to_issue
    rw [h]
  · intro t h hlt
    unfold add_comment_to_issue
    rw [h]
    simp [parseTs, hlt]
  · intro h hdry
    unfold add_comment_to_issue
    rw [h, hdry]
    rfl
  · intro t h hge hdry
    unfold add_comment_to_issue
    rw [h, hdry]
    simp [parseTs, hge, finishComment]

/-- Witness for C6 at a concrete environment (issue 1: fetch fails; issue
2: fresh, skipped; issue 3: stale, dry run records only). -/
theorem C6_refresh_precheck_witness :
    add_comment_to_issue envC6 10000000 1 (some 30) false = RefreshOutcome.fetchFailed ∧
    add_comment_to_issue envC6 10000000 2 (some 30) false = RefreshOutcome.skippedFresh ∧
    add_comment_to_issue envC6 10000000 3 (some 30) true = RefreshOutcome.dryRunOnly :=
  ⟨(C6_refresh_precheck envC6 10000000 1 30 false).1 (by decide),
   (C6_refresh_precheck envC6 10000000 2 30 false).2.1 9913600 (by decide) (by decide),
   (C6_refresh_precheck envC6 10000000 3 30 true).2.2.2 1000000 (by decide) (by decide) rfl⟩

/-- C7 (amended): a transport failure of one batched fetch ends the whole
traversal early: the loop returns the state found so far (best timestamp,
records, trace) with only an abort marker appended, rather than continuing
with the remaining queued frontier items; no error propagates. -/
theorem C7_batch_failure (env : Env) (fuel : Nat) (s : TravState)
    (hq : s.queue ≠ []) (hf : env.batchFails (s.queue.take batchSize) = true) :
    travLoopF env (fuel + 1) s =
      { s with trace := s.trace ++ [TravEvent.abortBatch (s.queue.take batchSize)] } := by
  rw [travLoopF_cons env fuel s hq, if_pos hf]

/-- Witness for C7's amended statement: with every batch failing, the
traversal of root 1 stops immediately with an abort marker. -/
theorem C7_batch_failure_witness :
    (initState 1).queue ≠ [] ∧
    envC7w.batchFails ((initState 1).queue.take batchSize) = true ∧
    travLoopF envC7w 1 (initState 1) =
      { initState 1 with trace := [TravEvent.abortBatch [1]] } :=
  ⟨by decide, by decide, C7_batch_failure envC7w 0 (initState 1) (by decide) (by decide)⟩

/-- Counterexample to C7 as stated: child 12 was enqueued as frontier work,
the batch holding children 2..11 failed, and the traversal ended without
ever fetching 12 — the remaining queued item was not evaluated, though the
best timestamp found so far was still returned. -/
theorem C7_counterexample :
    (get_most_recent_child_activity envC7 1).trace =
      [TravEvent.fetch [1] 1, TravEvent.enq 2, TravEvent.enq 3, TravEvent.enq 4,
       TravEvent.enq 5, TravEvent.enq 6, TravEvent.enq 7, TravEvent.enq 8,
       TravEvent.enq 9, TravEvent.enq 10, TravEvent.enq 11, TravEvent.enq 12,
       TravEvent.abortBatch [2, 3, 4, 5, 6, 7, 8, 9, 10, 11]] ∧
    (get_most_recent_child_activity envC7 1).best = some 5000000 := by
  exact ⟨by decide, by decide⟩

/-- C8 (amended): a descendant whose own `updatedAt` is missing or does not
parse is skipped entirely (excluded from the running maximum); a malformed
last-comment timestamp instead disables the bot discount, so the record
counts as genuine. -/
theorem C8_unparsable (ig : List String) (p : Int) (node : SubNode) (s : TravState)
    (h : node.updatedAt = none ∨ node.updatedAt = some RawTs.malformed) :
    processNode ig p (some node) s = (s, false) ∧
    (∀ upd lg ty, considerActivity ig upd lg ty (some RawTs.malformed) = true) := by
  constructor
  · unfold processNode
    by_cases hty : node.typename = "Issue"
    · simp only [if_pos hty]
      cases hnum : node.number with
      | none => rcases h with h | h <;> rw [h]
      | some child =>
        rcases h with h | h <;> rw [h]
        simp [parseTs]
    · simp [hty]
  · intro upd lg ty
    unfold considerActivity
    split
    · rfl
    · split <;> rfl

/-- Witness for C8's amended statement at a concrete malformed node. -/
theorem C8_unparsable_witness :
    processNode [] 1
      (some { typename := "Issue", number := some 9,
              updatedAt := some RawTs.malformed, comments := [] })
      (initState 1) = (initState 1, false) ∧
    considerActivity [] 100 (some "alice") (some "User") (some RawTs.malformed) = true :=
  ⟨(C8_unparsable [] 1 _ (initState 1) (Or.inr rfl)).1,
   (C8_unparsable [] 1
      ({ typename := "Issue", number := some 9,
         updatedAt := some RawTs.malformed, comments := [] } : SubNode)
      (initState 1) (Or.inr rfl)).2 100 (some "alice") (some "User")⟩

/-- Counterexample to C8 as stated: descendant 2's last comment is
bot-authored with a malformed timestamp; its record is nonetheless
classified genuine and its timestamp 100 becomes the returned maximum,
rather than being excluded. -/
theorem C8_counterexample :
    (get_most_recent_child_activity envC8 1).recs =
      [{ number := 2, updatedAt := 100, parent := 1,
         authorLogin := some "dependabot[bot]",
         commentUpdated := some RawTs.malformed, consider := true }] ∧
    (get_most_recent_child_activity envC8 1).best = some 100 := by
  exact ⟨by decide, by decide⟩

lemma charsPre_iff : ∀ (n h : List Char), charsPre n h = true ↔ n <+: h
  | [], h => by simp [charsPre]
  | a :: as, [] => by
    simp only [charsPre, Bool.false_eq_true, false_iff]
    intro hp
    have := List.prefix_nil.mp hp
    simp at this
  | a :: as, b :: bs => by
    simp only [charsPre, Bool.and_eq_true, beq_iff_eq]
    rw [List.cons_prefix_cons]
    exact and_congr Iff.rfl (charsPre_iff as bs)

lemma charsSub_iff : ∀ (n h : List Char), charsSub n h = true ↔ n <:+: h
  | n, [] => by
    rw [List.infix_nil]
    unfold charsSub
    rw [charsPre_iff, List.prefix_nil]
  | n, c :: cs => by
    unfold charsSub
    rw [Bool.or_eq_true, charsPre_iff, charsSub_iff n cs, List.infix_cons_iff]

lemma charsSuf_iff (n h : List Char) : charsSuf n h = true ↔ n <:+ h := by
  unfold charsSuf
  rw [charsPre_iff, List.reverse_prefix]

lemma botLogin_iff (l : String) :
    botLogin l = true ↔
      ("[bot]".data <:+ lowerChars l ∨ "dependabot".data <:+: lowerChars l ∨
       "github-actions".data <+: lowerChars l ∨ "bot".data <:+: lowerChars l) := by
  unfold botLogin
  simp only [Bool.or_eq_true, charsPre_iff, charsSub_iff, charsSuf_iff]
  tauto

lemma botAuthor_iff (ty lg : Option String) :
    botAuthor ty lg = true ↔
      (∃ s, ty = some s ∧ s ≠ "" ∧ lowerChars s = "bot".data) ∨
      (∃ l, lg = some l ∧ l ≠ "" ∧
        ("[bot]".data <:+ lowerChars l ∨ "dependabot".data <:+: lowerChars l ∨
         "github-actions".data <+: lowerChars l ∨ "bot".data <:+: lowerChars l)) := by
  unfold botAuthor
  by_cases hty : (truthy ty && (lowerChars (ty.getD "") == "bot".data)) = true
  · rw [if_pos hty]
    simp only [true_iff]
    left
    obtain ⟨h1, h2⟩ := Bool.and_eq_true_iff.mp hty
    cases ty with
    | none => simp [truthy] at h1
    | some s =>
      refine ⟨s, rfl, ?_, ?_⟩
      · intro hs
        subst hs
        simp [truthy] at h1
      · simpa using h2
  · rw [if_neg hty]
    have hA : ¬ ∃ s, ty = some s ∧ s ≠ "" ∧ lowerChars s = "bot".data := by
      rintro ⟨s, hs, hne, hlow⟩
      apply hty
      subst hs
      refine Bool.and_eq_true_iff.mpr ⟨?_, ?_⟩
      · simp [truthy, hne]
      · simpa using hlow
    by_cases hlg : truthy lg = true
    · rw [if_pos hlg]
      cases lg with
      | none => simp [truthy] at hlg
      | some l =>
        have hne : l ≠ "" := by
          intro h
          subst h
          simp [truthy] at hlg
        rw [botLogin_iff]
        constructor
        · intro h
          right
          exact ⟨l, rfl, hne, h⟩
        · rintro (h | ⟨l2, hl2, _, hpat⟩)
          · exact absurd h hA
          · cases hl2
            exact hpat
    · rw [if_neg hlg]
      simp only [Bool.false_eq_true, false_iff]
      rintro (h | ⟨l, hl, hne, _⟩)
      · exact hA h
      · subst hl
        exact hlg (by simp [truthy, hne])

lemma ignored_iff (ig : List String) (lg : Option String) :
    (truthy lg && ig.contains (lg.getD "")) = true ↔
      ∃ l, lg = some l ∧ l ≠ "" ∧ l ∈ ig := by
  cases lg with
  | none => simp [truthy]
  | some l =>
    simp only [truthy, Option.getD_some, Bool.and_eq_true, beq_iff_eq,
      Bool.not_eq_true']
    constructor
    · rintro ⟨h1, h2⟩
      refine ⟨l, rfl, ?_, ?_⟩
      · intro h; subst h; simp at h1
      · exact List.elem_iff.mp h2
    · rintro ⟨l2, hl2, hne, hmem⟩
      cases hl2
      exact ⟨by simpa using hne, List.elem_iff.mpr hmem⟩

lemma considerActivity_iff (ig : List String) (upd : Int) (lg ty : Option String)
    (cu : Option RawTs) :
    considerActivity ig upd lg ty cu = false ↔
      ((botAuthor ty lg = true ∨ (∃ l, lg = some l ∧ l ≠ "" ∧ l ∈ ig)) ∧
       ∃ t, cu = some (RawTs.valid t) ∧ upd ≤ t) := by
  unfold considerActivity
  by_cases hb : botAuthor ty lg = true
  · rw [if_pos hb]
    cases cu with
    | none => simp
    | some r =>
      cases r with
      | valid t =>
        by_cases hle : upd ≤ t
        · simp [hle, hb]
        · simp [hle]
      | malformed => simp
  · rw [if_neg hb]
    by_cases hig : (truthy lg && ig.contains (lg.getD "")) = true
    · rw [if_pos hig]
      have hig2 := (ignored_iff ig lg).mp hig
      cases cu with
      | none => simp
      | some r =>
        cases r with
        | valid t =>
          by_cases hle : upd ≤ t
          · simp [hle, hig2]
          · simp [hle]
        | malformed => simp
    · rw [if_neg hig]
      simp only [Bool.true_eq_false, false_iff]
      rintro ⟨hor, ht⟩
      rcases hor with h | h
      · exact hb h
      · exact hig ((ignored_iff ig lg).mpr h)

/-- C3 (amended): the classifier marks the author bot-authored exactly when
the author kind lowercases to the explicit bot tag, or the lowercased login
ends with `[bot]`, contains `dependabot`, starts with `github-actions`
(a prefix test, not a substring test), or contains `bot` anywhere; and an
update is classified not genuine exactly when its last comment is
bot-authored or by an ignored actor and the comment's timestamp parses to a
time at or after the item's last update; in all other cases it is genuine. -/
theorem C3_classifier (ig : List String) (upd : Int) (lg ty : Option String)
    (cu : Option RawTs) :
    (botAuthor ty lg = true ↔
      (∃ s, ty = some s ∧ s ≠ "" ∧ lowerChars s = "bot".data) ∨
      (∃ l, lg = some l ∧ l ≠ "" ∧
        ("[bot]".data <:+ lowerChars l ∨ "dependabot".data <:+: lowerChars l ∨
         "github-actions".data <+: lowerChars l ∨ "bot".data <:+: lowerChars l))) ∧
    (considerActivity ig upd lg ty cu = false ↔
      ((botAuthor ty lg = true ∨ (∃ l, lg = some l ∧ l ≠ "" ∧ l ∈ ig)) ∧
       ∃ t, cu = some (RawTs.valid t) ∧ upd ≤ t)) :=
  ⟨botAuthor_iff ty lg, considerActivity_iff ig upd lg ty cu⟩

/-- Counterexample to C3 as stated: the login `xgithub-actions` contains
the known bot-product substring `github-actions`, so the claim calls it
bot-authored, but the code's test is a prefix test and classifies it human;
its simultaneous comment therefore keeps counting as genuine activity. -/
theorem C3_counterexample :
    ("github-actions".data <:+: lowerChars "xgithub-actions") ∧
    botAuthor none (some "xgithub-actions") = false ∧
    considerActivity [] 100 (some "xgithub-actions") none
      (some (RawTs.valid 100)) = true := by
  refine ⟨?_, by decide, by decide⟩
  rw [← charsSub_iff]
  decide

/-- C1 (amended): for a scanned candidate (not deduplicated away), the
Refresh Action is invoked exactly when the traversal finds a most recent
genuine descendant timestamp and the whole days between now and it are
strictly below the threshold; the invoked action may still skip the actual
write (freshness pre-check, dry run). -/
theorem C1_refresh_decision (env : Env) (now thr : Int) (dry : Bool) (pos : Nat)
    (n : Int) (processed : Finset Int) (hnp : n ∉ processed) :
    ((∃ oc, ScanEvent.refreshCall pos n oc ∈ (labelItem env now thr dry pos n).1) ↔
      (∃ t, (get_most_recent_child_activity env n).best = some t ∧
        Int.fdiv (now - t) secPerDay < thr)) ∧
    ((∃ oc, ScanEvent.refreshCall pos n oc ∈
        (hierItemRest env now thr dry pos n processed).1) ↔
      (∃ t, (get_most_recent_child_activity env n).best = some t ∧
        Int.fdiv (now - t) secPerDay < thr)) := by
  constructor
  · unfold labelItem
    cases hb : (get_most_recent_child_activity env n).best with
    | none =>
      constructor
      · rintro ⟨oc, hoc⟩
        simp at hoc
      · rintro ⟨t, ht, _⟩
        simp at ht
    | some t =>
      dsimp only
      by_cases hf : Int.fdiv (now - t) secPerDay < thr
      · rw [if_pos hf]
        constructor
        · intro _
          exact ⟨t, rfl, hf⟩
        · intro _
          refine ⟨add_comment_to_issue env now n (some thr) dry, ?_⟩
          simp
      · rw [if_neg hf]
        constructor
        · rintro ⟨oc, hoc⟩
          simp at hoc
        · rintro ⟨t2, ht2, hf2⟩
          have : t2 = t := by
            have := ht2.symm
            simpa using this
          subst this
          exact absurd hf2 hf
  · unfold hierItemRest
    rw [if_neg hnp]
    cases hb : (get_most_recent_child_activity env n).best with
    | none =>
      constructor
      · rintro ⟨oc, hoc⟩
        simp at hoc
      · rintro ⟨t, ht, _⟩
        simp at ht
    | some t =>
      dsimp only
      by_cases hf : Int.fdiv (now - t) secPerDay < thr
      · rw [if_pos hf]
        split
        · constructor
          · intro _
            exact ⟨t, rfl, hf⟩
          · intro _
            refine ⟨add_comment_to_issue env now n (some thr) dry, ?_⟩
            simp
        · constructor
          · intro _
            exact ⟨t, rfl, hf⟩
          · intro _
            refine ⟨add_comment_to_issue env now n (some thr) dry, ?_⟩
            simp
      · rw [if_neg hf]
        constructor
        · rintro ⟨oc, hoc⟩
          simp at hoc
        · rintro ⟨t2, ht2, hf2⟩
          have : t2 = t := by
            have := ht2.symm
            simpa using this
          subst this
          exact absurd hf2 hf

/-- Witness for C1's amended statement: candidate 7 with two-day-old genuine
descendant activity gets a refresh call in the label-seeded scan. -/
theorem C1_refresh_decision_witness :
    (7 : Int) ∉ (∅ : Finset Int) ∧
    ∃ oc, ScanEvent.refreshCall 0 7 oc ∈ (labelItem envC1w 10000000 30 false 0 7).1 :=
  ⟨by decide, (C1_refresh_decision envC1w 10000000 30 false 0 7 ∅ (by decide)).1.mpr
      ⟨9900000, by decide, by decide⟩⟩

/-- Counterexample to C1 as stated: candidate 1's descendant activity is
two days old (within the 30-day threshold), so the claim demands a comment
write, but the invoked Refresh Action's pre-check finds the ancestor fresh
and no write is issued. -/
theorem C1_counterexample :
    (get_most_recent_child_activity envC1 1).best = some 9827200 ∧
    Int.fdiv (10000000 - 9827200) secPerDay < 30 ∧
    process_issues_by_labels envC1 10000000 30 false =
      [ScanEvent.evalItem 0 1 (some 9827200),
       ScanEvent.refreshCall 0 1 RefreshOutcome.skippedFresh] ∧
    countWrites 1 (process_issues_by_labels envC1 10000000 30 false) = 0 := by
  exact ⟨by decide, by decide, by decide, by decide⟩

/-- C4 (amended): if item `k` of the flattened ascending listing is the
first that carries a number and a parseable last-update timestamp newer
than the cutoff, then the stale scan evaluates and refreshes only items
strictly before `k` and starts no page beyond the one holding `k`. -/
theorem C4_early_exit (env : Env) (now thr : Int) (dry : Bool) (k : Nat)
    (hk : stopItemO (now - thr * secPerDay) (flatItems env.pages)[k]? = true)
    (hbefore : ∀ j, j < k →
      stopItemO (now - thr * secPerDay) (flatItems env.pages)[j]? = false) :
    ∀ e ∈ process_issues_by_hierarchy env now thr dry, posOK k e := by
  unfold process_issues_by_hierarchy
  apply hierPages_bound env now (now - thr * secPerDay) thr dry k env.pages 0 0 ∅
    (Nat.zero_le k)
  · intro j hj
    exact hbefore j (by omega)
  · intro j hj _
    have hjk : j = k := by omega
    subst hjk
    exact hk

/-- Witness for C4's amended statement: in a two-page listing whose second
item is the first stopping item, every event stays at or before position 1. -/
theorem C4_early_exit_witness :
    stopItemO (10000000 - 30 * secPerDay) (flatItems envC4w.pages)[1]? = true ∧
    (∀ j, j < 1 →
      stopItemO (10000000 - 30 * secPerDay) (flatItems envC4w.pages)[j]? = false) ∧
    ∀ e ∈ process_issues_by_hierarchy envC4w 10000000 30 false, posOK 1 e :=
  ⟨by decide, by decide,
   C4_early_exit envC4w 10000000 30 false 1 (by decide) (by decide)⟩

/-- Counterexample to C4 as stated: the second listed item (index 1) is the
first whose timestamp is newer than the cutoff, but it carries no number,
so the scan does not stop: the item at index 2 is still evaluated. -/
theorem C4_counterexample :
    envC4.pages = [PageResp.page
      [{ number := some 4, updatedAt := some (RawTs.valid 1000000) },
       { number := none, updatedAt := some (RawTs.valid 9999999) },
       { number := some 6, updatedAt := some RawTs.malformed }] false] ∧
    (1000000 : Int) ≤ 10000000 - 30 * secPerDay ∧
    10000000 - 30 * secPerDay < 9999999 ∧
    process_issues_by_hierarchy envC4 10000000 30 false =
      [ScanEvent.pageStart 0 0, ScanEvent.evalItem 0 4 none,
       ScanEvent.evalItem 2 6 none] := by
  exact ⟨rfl, by decide, by decide, by decide⟩

/-- C10: a refresh call whose comment POST fails after retries still adds
the ancestor to the processed set, and consequently that ancestor sees
exactly one refresh call in the whole stale scan. -/
theorem C10_processed_after_failure :
    (∀ (env : Env) (now thr : Int) (dry : Bool) (pos : Nat) (n : Int)
        (processed : Finset Int),
      ScanEvent.refreshCall pos n RefreshOutcome.postFailed ∈
        (hierItemRest env now thr dry pos n processed).1 →
      n ∈ (hierItemRest env now thr dry pos n processed).2.1) ∧
    (∀ (env : Env) (now thr : Int) (dry : Bool) (id : Int) (pos : Nat),
      ScanEvent.refreshCall pos id RefreshOutcome.postFailed ∈
        process_issues_by_hierarchy env now thr dry →
      countRC id (process_issues_by_hierarchy env now thr dry) = 1) := by
  constructor
  · intro env now thr dry pos n processed hmem
    revert hmem
    unfold hierItemRest
    split
    · intro hmem; simp at hmem
    · split
      · split
        · dsimp only
          split
          · rename_i hoc
            rw [hoc]
            intro hmem
            simp at hmem
          · intro _
            exact Finset.mem_insert_self _ _
        · intro hmem; simp at hmem
      · intro hmem; simp at hmem
  · intro env now thr dry id pos hmem
    have h1 := hier_once env now thr dry id
    have h2 := countRC_pos_of_mem hmem
    omega

/-- Witness for C10: issue 5's refresh POST fails, yet it is refreshed only
once in the whole scan. -/
theorem C10_processed_after_failure_witness :
    ScanEvent.refreshCall 0 5 RefreshOutcome.postFailed ∈
      process_issues_by_hierarchy envC10 10000000 30 false ∧
    countRC 5 (process_issues_by_hierarchy envC10 10000000 30 false) = 1 :=
  ⟨by decide,
   C10_processed_after_failure.2 envC10 10000000 30 false 5 0 (by decide)⟩

end Heirloom
